import Mathlib

/-!
# Verification of qutebrowser's `misc/lineparser.py`

Shallow embedding of the line-based persistence module
(`BaseLineParser`, `LineParser`, `LimitLineParser`).

Records ("lines") are modelled as lists of bytes (`List Nat`); the binary
and text modes of the source have identical structure over their respective
alphabets (bytes / unicode code points), so one model covers both, with the
newline terminator `NL = 10`.

The filesystem visible to one parser instance is its backing file
(`self._configfile`) and its parent directory (`self._configdir`); these
are the only paths the source touches, so the state is just
`(file contents?, directory exists?)`.

`qtutils.savefile_open` (the atomic writer) is not part of this file's
source; it is modelled from the spec (see `atomic write` comments below):
on success the target receives the whole serialized buffer, on any failure
at open/write/fsync/rename the target file is left untouched and the error
propagates.  An `IOOracle` says which of the I/O steps fails, so that
failure paths are part of the model.
-/

/-- The newline byte / code point `0x0A`. -/
def NL : Nat := 10

/-- One record: an opaque byte (or code-point) sequence. -/
abbrev Line := List Nat

/-- `'\n'.join(data)` / `b'\n'.join(data)`: serialization used by
`BaseLineParser._write` — records joined by a single `NL`, no trailing
terminator. -/
def joinLines : List Line → Line
  | [] => []
  | [l] => l
  | l :: ls => l ++ NL :: joinLines ls

/-- Python `f.readlines()`: split the content after every `NL`, keeping the
terminator on each line; a nonempty tail without a terminator is a final
line of its own, an empty tail yields no extra line. -/
def readlines : List Nat → List (List Nat)
  | [] => []
  | b :: bs =>
    if b = NL then [NL] :: readlines bs
    else
      match readlines bs with
      | [] => [[b]]
      | l :: ls => (b :: l) :: ls

/-- Python `line.rstrip('\n')` / `line.rstrip(b'\n')`: remove ALL trailing
newline bytes (and nothing else). -/
def rstripNL (l : List Nat) : List Nat :=
  (l.reverse.dropWhile (fun b => b = NL)).reverse

/-- `LineParser._read` applied to the file content: each `readlines` line,
stripped of trailing newlines. -/
def LineParser.readData (content : List Nat) : List Line :=
  (readlines content).map rstripNL

/-- The filesystem state one parser instance can observe: the content of
its backing file (`none` = file does not exist) and whether its config
directory exists. -/
structure FS where
  file : Option (List Nat)
  dirExists : Bool
deriving DecidableEq

/-- Which I/O operation of a save fails (spec §4.1 / §7). -/
inductive SaveStep
  | mkdirStep
  | openStep
  | writeStep
  | fsyncStep
  | renameStep
deriving DecidableEq

/-- Failure injection for one `save()` call: which steps would fail if
executed. -/
structure IOOracle where
  mkdirFails : Bool
  openFails : Bool
  writeFails : Bool
  fsyncFails : Bool
  renameFails : Bool
deriving DecidableEq

/-- The all-succeed oracle. -/
def noFail : IOOracle := ⟨false, false, false, false, false⟩

/-- `LineParser.__init__` / `_read`, with a failure flag for the read of an
existing file: if the path is not an existing file, `data = []` and no I/O
happens; otherwise the file is read (which can fail) and split into
stripped lines. -/
def LineParser.construct (fs : FS) (readFails : Bool) :
    Except SaveStep (List Line) :=
  match fs.file with
  | none => Except.ok []
  | some content =>
    if readFails then Except.error SaveStep.openStep
    else Except.ok (LineParser.readData content)

/-- `LineParser.save`: `makedirs` if the directory is missing, then the
atomic write of `'\n'.join(self.data)`.

Modelled from the spec: `qtutils.savefile_open` — the open/write/fsync
steps act on a temp file and the rename is atomic, so on ANY failure the
backing file keeps its previous content; on success it holds exactly the
serialized buffer.  Returns (outcome, filesystem after, `self.data`
after); the source never assigns `self.data` in `save`, so the last
component is `data` itself. -/
def LineParser.save (fs : FS) (data : List Line) (o : IOOracle) :
    Except SaveStep Unit × FS × List Line :=
  if ¬ fs.dirExists ∧ o.mkdirFails then
    (Except.error SaveStep.mkdirStep, fs, data)
  else
    let fs1 : FS := ⟨fs.file, true⟩
    if o.openFails then (Except.error SaveStep.openStep, fs1, data)
    else if o.writeFails then (Except.error SaveStep.writeStep, fs1, data)
    else if o.fsyncFails then (Except.error SaveStep.fsyncStep, fs1, data)
    else if o.renameFails then (Except.error SaveStep.renameStep, fs1, data)
    else (Except.ok (), ⟨some (joinLines data), true⟩, data)

/-- A `(section, option)` config tuple. -/
abbrev ConfigKey := String × String

/-- Errors a `LimitLineParser.save` can raise: an I/O failure from the
atomic write path, or the `TypeError` from `config.get(*self._limit)` when
`self._limit` is `None`. -/
inductive SaveErr
  | ioFail (s : SaveStep)
  | typeErr
deriving DecidableEq

/-- Python `data[-limit:]` for an arbitrary integer `limit` (the slice
`xs[i:]` with `i = -limit`): for `i ≥ 0` drop the first `i` elements, for
`i < 0` start at `max 0 (len + i)`. -/
def pySliceFrom (i : Int) (l : List Line) : List Line :=
  if 0 ≤ i then l.drop i.toNat
  else l.drop (l.length - (-i).toNat)

/-- `LimitLineParser.save`: resolve the limit via `config.get(*self._limit)`
(a `TypeError` if `self._limit` is `None`); return early if it is `0`;
otherwise `_prepare_save` (makedirs) and the atomic write of
`'\n'.join(self.data[-limit:])`. -/
def LimitLineParser.save (limitKey : Option ConfigKey) (cfg : ConfigKey → Int)
    (fs : FS) (data : List Line) (o : IOOracle) :
    Except SaveErr Unit × FS × List Line :=
  match limitKey with
  | none => (Except.error SaveErr.typeErr, fs, data)
  | some k =>
    if cfg k = 0 then (Except.ok (), fs, data)
    else if ¬ fs.dirExists ∧ o.mkdirFails then
      (Except.error (SaveErr.ioFail SaveStep.mkdirStep), fs, data)
    else
      let fs1 : FS := ⟨fs.file, true⟩
      if o.openFails then (Except.error (SaveErr.ioFail SaveStep.openStep), fs1, data)
      else if o.writeFails then (Except.error (SaveErr.ioFail SaveStep.writeStep), fs1, data)
      else if o.fsyncFails then (Except.error (SaveErr.ioFail SaveStep.fsyncStep), fs1, data)
      else if o.renameFails then (Except.error (SaveErr.ioFail SaveStep.renameStep), fs1, data)
      else (Except.ok (), ⟨some (joinLines (pySliceFrom (-(cfg k)) data)), true⟩, data)

/-- `LimitLineParser.cleanup_file(section, option)`: no-op unless the
changed key equals `self._limit`; if the resolved value is `0` and the
backing file exists, remove it. -/
def LimitLineParser.cleanup_file (limitKey : Option ConfigKey)
    (cfg : ConfigKey → Int) (changed : ConfigKey) (fs : FS) : FS :=
  if limitKey ≠ some changed then fs
  else if cfg changed = 0 then
    if fs.file.isSome then ⟨none, fs.dirExists⟩ else fs
  else fs

/-- A `save()` call on either parser, for statements quantifying over both
(`LineParser.save` outcomes are injected into `SaveErr`). -/
def runSave : (Option (Option ConfigKey × (ConfigKey → Int))) → FS →
    List Line → IOOracle → Except SaveErr Unit × FS × List Line
  | none, fs, data, o =>
    match LineParser.save fs data o with
    | (Except.error s, fs2, d2) => (Except.error (SaveErr.ioFail s), fs2, d2)
    | (Except.ok u, fs2, d2) => (Except.ok u, fs2, d2)
  | some (lk, cfg), fs, data, o => LimitLineParser.save lk cfg fs data o

/-- Stripping of exactly one trailing terminator (the spec's description of
loading, to be compared with the source's `rstrip`). -/
def stripOneNL (l : List Nat) : List Nat :=
  if l.getLast? = some NL then l.dropLast else l

/-! ## Helper lemmas on the serialization and parsing primitives -/

lemma readlines_eq_nil_iff (s : List Nat) : readlines s = [] ↔ s = [] := by
  constructor
  · intro h
    cases s with
    | nil => rfl
    | cons b bs =>
      simp only [readlines] at h
      split at h
      · exact absurd h (by simp)
      · split at h <;> simp_all
  · intro h; subst h; rfl

lemma dropWhile_eq_self_of_no_nl (l : List Nat) (h : NL ∉ l) :
    l.dropWhile (fun b => b = NL) = l := by
  cases l with
  | nil => rfl
  | cons b bs =>
    have hb : b ≠ NL := fun hbe => h (hbe ▸ List.mem_cons_self b bs)
    simp [List.dropWhile_cons, hb]

lemma rstripNL_of_getLast_ne (l : List Nat) (h : l.getLast? ≠ some NL) :
    rstripNL l = l := by
  unfold rstripNL
  cases hrev : l.reverse with
  | nil => simp [List.reverse_eq_nil_iff.mp hrev]
  | cons b t =>
    have hb : b ≠ NL := by
      intro hbe
      apply h
      rw [← List.head?_reverse, hrev, hbe]
      rfl
    rw [List.dropWhile_cons, if_neg (by simp [hb]), ← hrev,
      List.reverse_reverse]

lemma rstripNL_of_no_nl (l : List Nat) (h : NL ∉ l) : rstripNL l = l := by
  apply rstripNL_of_getLast_ne
  intro hc
  exact h (List.mem_of_getLast?_eq_some hc)

lemma rstripNL_append_nl (d : List Nat) (h : NL ∉ d) :
    rstripNL (d ++ [NL]) = d := by
  unfold rstripNL
  rw [List.reverse_append]
  simp only [List.reverse_cons, List.reverse_nil, List.nil_append,
    List.singleton_append]
  rw [List.dropWhile_cons, if_pos (by simp),
    dropWhile_eq_self_of_no_nl d.reverse (by simpa using h),
    List.reverse_reverse]

lemma readlines_no_nl (d : List Nat) (h : NL ∉ d) (hne : d ≠ []) :
    readlines d = [d] := by
  induction d with
  | nil => exact absurd rfl hne
  | cons b bs ih =>
    have hb : b ≠ NL := fun hbe => h (hbe ▸ List.mem_cons_self b bs)
    have hbs : NL ∉ bs := fun hm => h (List.mem_cons_of_mem b hm)
    simp only [readlines, if_neg hb]
    cases hbsn : bs with
    | nil => simp [readlines]
    | cons c cs =>
      rw [← hbsn, ih hbs (by simp [hbsn])]

lemma readlines_append_nl (d rest : List Nat) (h : NL ∉ d) :
    readlines (d ++ NL :: rest) = (d ++ [NL]) :: readlines rest := by
  induction d with
  | nil => simp [readlines]
  | cons b bs ih =>
    have hb : b ≠ NL := fun hbe => h (hbe ▸ List.mem_cons_self b bs)
    have hbs : NL ∉ bs := fun hm => h (List.mem_cons_of_mem b hm)
    simp only [List.cons_append, readlines, if_neg hb, List.append_eq, ih hbs]

lemma readlines_flatten (s : List Nat) : (readlines s).flatten = s := by
  induction s with
  | nil => rfl
  | cons b bs ih =>
    simp only [readlines]
    by_cases hb : b = NL
    · simp [hb, ih]
    · rw [if_neg hb]
      cases hr : readlines bs with
      | nil =>
        have : bs = [] := (readlines_eq_nil_iff bs).mp hr
        simp [this]
      | cons l ls =>
        rw [hr] at ih
        simp only [List.flatten_cons] at ih ⊢
        simp [← ih]

lemma readlines_dropLast_no_nl (s : List Nat) :
    ∀ l ∈ readlines s, NL ∉ l.dropLast := by
  induction s with
  | nil => intro l hl; simp [readlines] at hl
  | cons b bs ih =>
    intro l hl
    simp only [readlines] at hl
    by_cases hb : b = NL
    · rw [if_pos hb] at hl
      rcases List.mem_cons.mp hl with h1 | h2
      · subst h1; simp
      · exact ih l h2
    · rw [if_neg hb] at hl
      cases hr : readlines bs with
      | nil =>
        rw [hr] at hl
        simp only [List.mem_singleton] at hl
        subst hl; simp
      | cons l' ls =>
        rw [hr] at hl
        rcases List.mem_cons.mp hl with h1 | h2
        · subst h1
          intro hmem
          cases hl'e : l' with
          | nil => simp [hl'e] at hmem
          | cons c cs =>
            rw [hl'e, List.dropLast_cons₂] at hmem
            rcases List.mem_cons.mp hmem with hc | hc
            · exact hb hc.symm
            · have hmem' := ih l' (hr ▸ List.mem_cons_self l' ls)
              rw [hl'e] at hmem'
              exact hmem' hc
        · exact ih l (hr ▸ List.mem_cons_of_mem l' h2)

lemma rstripNL_eq_stripOneNL_of_mem (s l : List Nat) (hl : l ∈ readlines s) :
    rstripNL l = stripOneNL l := by
  unfold stripOneNL
  by_cases hlast : l.getLast? = some NL
  · rw [if_pos hlast]
    rcases List.getLast?_eq_some_iff.mp hlast with ⟨ys, hys⟩
    have hys' : l.dropLast = ys := by rw [hys]; exact List.dropLast_concat
    have hno : NL ∉ ys := by
      rw [← hys']; exact readlines_dropLast_no_nl s l hl
    rw [hys, rstripNL_append_nl ys hno]
    exact List.dropLast_concat.symm
  · rw [if_neg hlast, rstripNL_of_getLast_ne l hlast]

lemma no_nl_rstripNL_of_mem (s l : List Nat) (hl : l ∈ readlines s) :
    NL ∉ rstripNL l := by
  rw [rstripNL_eq_stripOneNL_of_mem s l hl]
  unfold stripOneNL
  by_cases hlast : l.getLast? = some NL
  · rw [if_pos hlast]
    exact readlines_dropLast_no_nl s l hl
  · rw [if_neg hlast]
    intro hmem
    cases hln : l.getLast? with
    | none =>
      rw [List.getLast?_eq_none_iff.mp hln] at hmem
      simp at hmem
    | some a =>
      have hdecomp := List.dropLast_append_getLast? a (Option.mem_def.mpr hln)
      rw [← hdecomp] at hmem
      rcases List.mem_append.mp hmem with h1 | h1
      · exact readlines_dropLast_no_nl s l hl h1
      · have hna : NL = a := by simpa using h1
        exact hlast (by rw [hln, ← hna])

lemma readData_joinLines (data : List Line) (hnl : ∀ l ∈ data, NL ∉ l)
    (hlast : data.getLast? ≠ some ([] : Line)) :
    LineParser.readData (joinLines data) = data := by
  induction data with
  | nil => rfl
  | cons d ds ih =>
    cases hds : ds with
    | nil =>
      have hd : NL ∉ d := hnl d (List.mem_cons_self d ds)
      have hdne : d ≠ [] := by
        intro he
        apply hlast
        rw [hds, he]
        rfl
      subst hds
      unfold LineParser.readData
      rw [show joinLines [d] = d from rfl, readlines_no_nl d hd hdne]
      simp [rstripNL_of_no_nl d hd]
    | cons d2 ds2 =>
      subst hds
      have hd : NL ∉ d := hnl d (List.mem_cons_self _ _)
      have hjoin : joinLines (d :: d2 :: ds2) = d ++ NL :: joinLines (d2 :: ds2) := rfl
      unfold LineParser.readData
      rw [hjoin, readlines_append_nl d _ hd]
      simp only [List.map_cons]
      rw [rstripNL_append_nl d hd]
      have ihr := ih (fun l hl => hnl l (List.mem_cons_of_mem d hl))
        (by intro hc; exact hlast (by rw [List.getLast?_cons_cons]; exact hc))
      unfold LineParser.readData at ihr
      rw [ihr]

lemma count_joinLines (data : List Line) (hne : data ≠ [])
    (hnl : ∀ l ∈ data, NL ∉ l) :
    (joinLines data).count NL = data.length - 1 := by
  induction data with
  | nil => exact absurd rfl hne
  | cons d ds ih =>
    cases hds : ds with
    | nil =>
      subst hds
      show (joinLines [d]).count NL = 0
      rw [show joinLines [d] = d from rfl]
      exact List.count_eq_zero.mpr (hnl d (List.mem_cons_self d []))
    | cons d2 ds2 =>
      subst hds
      have hjoin : joinLines (d :: d2 :: ds2) = d ++ NL :: joinLines (d2 :: ds2) := rfl
      have hd0 : d.count NL = 0 :=
        List.count_eq_zero.mpr (hnl d (List.mem_cons_self _ _))
      have ihr := ih (by simp) (fun l hl => hnl l (List.mem_cons_of_mem d hl))
      rw [hjoin, List.count_append, List.count_cons, hd0, ihr]
      simp

lemma pySliceFrom_neg_ofNat (N : Nat) (h : 0 < N) (l : List Line) :
    pySliceFrom (-(N : Int)) l = l.drop (l.length - N) := by
  unfold pySliceFrom
  rw [if_neg (by omega)]
  congr 1
  omega

example : joinLines [[97], [98, 99]] = [97, NL, 98, 99] := by decide
example : readlines [97, NL, 98, 99] = [[97, NL], [98, 99]] := by decide
example : readlines [97, NL] = [[97, NL]] := by decide
example : LineParser.readData [97, NL, 98] = [[97], [98]] := by decide
example : LineParser.readData [] = [] := by decide
example : joinLines [[]] = [] := by decide
example : LineParser.readData (joinLines [[97], []]) = [[97]] := by decide
example : pySliceFrom (-2) [[1], [2], [3]] = [[2], [3]] := by decide
example : pySliceFrom (-5) [[1], [2], [3]] = [[1], [2], [3]] := by decide

/-! ## Claim theorems -/

/-- C1: with a resolved limit `N`, `0 < N < L = data.length`, a successful
`LimitLineParser.save` persists exactly the last `N` records in their
original relative order (the file holds their serialization), and the
in-memory `data` is left unmodified with length `L`. -/
theorem C1_boundedRetention (data : List Line) (N : Nat) (k : ConfigKey)
    (cfg : ConfigKey → Int) (fs : FS)
    (h1 : 0 < N) (h2 : N < data.length) (hc : cfg k = (N : Int)) :
    (LimitLineParser.save (some k) cfg fs data noFail).1 = Except.ok () ∧
    (LimitLineParser.save (some k) cfg fs data noFail).2.1.file =
      some (joinLines (data.drop (data.length - N))) ∧
    (data.drop (data.length - N)).length = N ∧
    (LimitLineParser.save (some k) cfg fs data noFail).2.2 = data ∧
    (LimitLineParser.save (some k) cfg fs data noFail).2.2.length = data.length := by
  have hne : cfg k ≠ 0 := by rw [hc]; exact_mod_cast h1.ne'
  have hslice : pySliceFrom (-(cfg k)) data = data.drop (data.length - N) := by
    rw [hc, pySliceFrom_neg_ofNat N h1]
  refine ⟨?_, ?_, ?_, ?_, ?_⟩ <;>
    simp [LimitLineParser.save, noFail, hne, hslice, List.length_drop]
  omega

theorem C1_boundedRetention_witness :
    (LimitLineParser.save (some ("completion", "history-length"))
        (fun _ => (2 : Int)) ⟨none, false⟩ [[97], [98], [99]] noFail).1 =
      Except.ok () ∧
    (LimitLineParser.save (some ("completion", "history-length"))
        (fun _ => (2 : Int)) ⟨none, false⟩ [[97], [98], [99]] noFail).2.1.file =
      some (joinLines ([[97], [98], [99]].drop ([[97], [98], [99]].length - 2))) ∧
    (([[97], [98], [99]] : List Line).drop ([[97], [98], [99]].length - 2)).length = 2 ∧
    (LimitLineParser.save (some ("completion", "history-length"))
        (fun _ => (2 : Int)) ⟨none, false⟩ [[97], [98], [99]] noFail).2.2 =
      [[97], [98], [99]] ∧
    (LimitLineParser.save (some ("completion", "history-length"))
        (fun _ => (2 : Int)) ⟨none, false⟩ [[97], [98], [99]] noFail).2.2.length =
      ([[97], [98], [99]] : List Line).length :=
  C1_boundedRetention [[97], [98], [99]] 2 ("completion", "history-length")
    (fun _ => (2 : Int)) ⟨none, false⟩ (by decide) (by decide) rfl

/-- C4: when the limit resolves to exactly `0`, `LimitLineParser.save` is a
complete no-op: it succeeds, leaves the whole filesystem state unchanged
(file untouched, directory not created) and the in-memory data unchanged. -/
theorem C4_zeroLimitSaveNoop (k : ConfigKey) (cfg : ConfigKey → Int) (fs : FS)
    (data : List Line) (o : IOOracle) (h : cfg k = 0) :
    LimitLineParser.save (some k) cfg fs data o = (Except.ok (), fs, data) := by
  simp [LimitLineParser.save, h]

theorem C4_zeroLimitSaveNoop_witness :
    LimitLineParser.save (some ("completion", "history-length")) (fun _ => (0 : Int))
      ⟨some [97], false⟩ [[98]] ⟨true, true, true, true, true⟩ =
    (Except.ok (), ⟨some [97], false⟩, [[98]]) :=
  C4_zeroLimitSaveNoop ("completion", "history-length") (fun _ => (0 : Int))
    ⟨some [97], false⟩ [[98]] ⟨true, true, true, true, true⟩ rfl

/-- C6 counterexample: with a `None` limit, `LimitLineParser.save` raises a
`TypeError` from `config.get(*self._limit)` and persists nothing, while
`LineParser.save` on the same state succeeds and persists all lines — so
the two do NOT behave identically. -/
theorem C6_noneLimit_cex :
    (LimitLineParser.save none (fun _ => (1 : Int)) ⟨none, true⟩ [[97]] noFail).1 =
      Except.error SaveErr.typeErr ∧
    (LimitLineParser.save none (fun _ => (1 : Int)) ⟨none, true⟩ [[97]] noFail).2.1.file ≠
      some (joinLines [[97]]) ∧
    (LineParser.save ⟨none, true⟩ [[97]] noFail).1 = Except.ok () ∧
    (LineParser.save ⟨none, true⟩ [[97]] noFail).2.1.file = some (joinLines [[97]]) := by
  refine ⟨rfl, ?_, rfl, rfl⟩
  intro h
  simp [LimitLineParser.save] at h

/-- C6 amended: with a `None` limit key, `save()` fails with a `TypeError`
(rather than behaving like `LineParser.save`), leaving the filesystem and
the in-memory data unchanged. -/
theorem C6_noneLimit_typeError (cfg : ConfigKey → Int) (fs : FS)
    (data : List Line) (o : IOOracle) :
    LimitLineParser.save none cfg fs data o =
      (Except.error SaveErr.typeErr, fs, data) := rfl

/-- C8: constructing a `LineParser` on a path that is not an existing
regular file succeeds and yields the empty data sequence (no I/O is
attempted, so no error can occur). -/
theorem C8_missingFileEmpty (fs : FS) (readFails : Bool) (h : fs.file = none) :
    LineParser.construct fs readFails = Except.ok [] := by
  simp [LineParser.construct, h]

theorem C8_missingFileEmpty_witness :
    LineParser.construct ⟨none, true⟩ true = Except.ok [] :=
  C8_missingFileEmpty ⟨none, true⟩ true rfl

/-- C2: whenever a `save()` call — on either parser — fails with an error,
the error propagates (it is the call's result), the backing file's content
is unchanged from its pre-save state, and the in-memory data is intact. -/
theorem C2_saveFailureAtomic (call : Option (Option ConfigKey × (ConfigKey → Int)))
    (fs : FS) (data : List Line) (o : IOOracle) (e : SaveErr)
    (h : (runSave call fs data o).1 = Except.error e) :
    (runSave call fs data o).2.1.file = fs.file ∧
    (runSave call fs data o).2.2 = data := by
  obtain ⟨file, dir⟩ := fs
  obtain ⟨m, op, w, fy, r⟩ := o
  cases call with
  | none =>
    cases dir <;> cases m <;> cases op <;> cases w <;> cases fy <;> cases r <;>
      simp_all [runSave, LineParser.save]
  | some p =>
    obtain ⟨lk, cfg⟩ := p
    cases lk with
    | none => simp_all [runSave, LimitLineParser.save]
    | some k =>
      by_cases hk : cfg k = 0
      · simp_all [runSave, LimitLineParser.save]
      · cases dir <;> cases m <;> cases op <;> cases w <;> cases fy <;> cases r <;>
          simp_all [runSave, LimitLineParser.save]

theorem C2_saveFailureAtomic_witness :
    (runSave none ⟨some [97], true⟩ [[98]] ⟨false, true, false, false, false⟩).2.1.file =
      (⟨some [97], true⟩ : FS).file ∧
    (runSave none ⟨some [97], true⟩ [[98]] ⟨false, true, false, false, false⟩).2.2 =
      [[98]] :=
  C2_saveFailureAtomic none ⟨some [97], true⟩ [[98]] ⟨false, true, false, false, false⟩
    (SaveErr.ioFail SaveStep.openStep) rfl

/-- C3 counterexample: the sequence `[[]]` (one empty record, containing no
newline byte) does not round-trip — saving it writes an empty file, and a
fresh construction on that file yields `[]`, not `[[]]`. -/
theorem C3_roundTrip_cex :
    (∀ l ∈ [([] : Line)], NL ∉ l) ∧
    LineParser.construct ((LineParser.save ⟨none, false⟩ [([] : Line)] noFail).2.1)
        false ≠ Except.ok [([] : Line)] := by
  constructor
  · intro l hl
    simp only [List.mem_singleton] at hl
    subst hl
    simp
  · intro h
    have h2 : LineParser.readData (joinLines [([] : Line)]) = [([] : Line)] := by
      have := Except.ok.inj h
      simpa [LineParser.construct, LineParser.save, noFail] using h
    simp [LineParser.readData, joinLines, readlines] at h2

/-- C3 amended: a sequence of newline-free records whose last record (if
any) is nonempty round-trips: `save()` then fresh construction on the same
path yields the identical sequence. -/
theorem C3_roundTrip (fs : FS) (data : List Line)
    (hnl : ∀ l ∈ data, NL ∉ l) (hlast : data.getLast? ≠ some ([] : Line)) :
    LineParser.construct ((LineParser.save fs data noFail).2.1) false =
      Except.ok data := by
  have hsave : (LineParser.save fs data noFail).2.1 = ⟨some (joinLines data), true⟩ := by
    obtain ⟨file, dir⟩ := fs
    cases dir <;> simp [LineParser.save, noFail]
  rw [hsave]
  simp only [LineParser.construct, Bool.false_eq_true, if_false]
  rw [readData_joinLines data hnl hlast]

theorem C3_roundTrip_witness :
    LineParser.construct ((LineParser.save ⟨none, false⟩ [[97], [98]] noFail).2.1)
        false = Except.ok [[97], [98]] :=
  C3_roundTrip ⟨none, false⟩ [[97], [98]] (by decide) (by decide)

/-- C5: `cleanup_file` is a no-op when the changed key differs from the
limit key; when the key matches, the value resolves to `0` and the backing
file exists, the file is deleted directly; and a subsequent `save()` while
the limit is still `0` succeeds without recreating the file. -/
theorem C5_cleanupFile (lk : Option ConfigKey) (cfg : ConfigKey → Int)
    (ck : ConfigKey) (fs : FS) (data : List Line) (o : IOOracle) :
    (lk ≠ some ck → LimitLineParser.cleanup_file lk cfg ck fs = fs) ∧
    (lk = some ck → cfg ck = 0 → fs.file.isSome = true →
      (LimitLineParser.cleanup_file lk cfg ck fs).file = none ∧
      (LimitLineParser.save lk cfg (LimitLineParser.cleanup_file lk cfg ck fs)
          data o).1 = Except.ok () ∧
      (LimitLineParser.save lk cfg (LimitLineParser.cleanup_file lk cfg ck fs)
          data o).2.1.file = none) := by
  constructor
  · intro hne
    simp [LimitLineParser.cleanup_file, hne]
  · intro heq h0 hsome
    subst heq
    have hclean : LimitLineParser.cleanup_file (some ck) cfg ck fs =
        ⟨none, fs.dirExists⟩ := by
      simp [LimitLineParser.cleanup_file, h0, hsome]
    rw [hclean]
    refine ⟨rfl, ?_, ?_⟩ <;> simp [LimitLineParser.save, h0]

theorem C5_cleanupFile_witness :
    (LimitLineParser.cleanup_file (some ("completion", "history-length"))
        (fun _ => (0 : Int)) ("general", "private-browsing") ⟨some [97], true⟩ =
      (⟨some [97], true⟩ : FS)) ∧
    (LimitLineParser.cleanup_file (some ("completion", "history-length"))
        (fun _ => (0 : Int)) ("completion", "history-length") ⟨some [97], true⟩).file =
      none ∧
    (LimitLineParser.save (some ("completion", "history-length")) (fun _ => (0 : Int))
        (LimitLineParser.cleanup_file (some ("completion", "history-length"))
          (fun _ => (0 : Int)) ("completion", "history-length") ⟨some [97], true⟩)
        [[98]] noFail).1 = Except.ok () ∧
    (LimitLineParser.save (some ("completion", "history-length")) (fun _ => (0 : Int))
        (LimitLineParser.cleanup_file (some ("completion", "history-length"))
          (fun _ => (0 : Int)) ("completion", "history-length") ⟨some [97], true⟩)
        [[98]] noFail).2.1.file = none := by
  refine ⟨?_, ?_⟩
  · exact (C5_cleanupFile (some ("completion", "history-length")) (fun _ => (0 : Int))
      ("general", "private-browsing") ⟨some [97], true⟩ [[98]] noFail).1 (by decide)
  · exact (C5_cleanupFile (some ("completion", "history-length")) (fun _ => (0 : Int))
      ("completion", "history-length") ⟨some [97], true⟩ [[98]] noFail).2 rfl rfl rfl

/-- C7: the serialized buffer joins records with a single newline byte and
has no terminator after the last record (exactly `n - 1` newline bytes for
`n` newline-free records); on load the content is split on the newline
byte (the split lines concatenate back to the content and contain no
interior newline), and the source's `rstrip` strips exactly one trailing
terminator per split line and nothing else. -/
theorem C7_serializationFormat (data : List Line) (content : List Nat)
    (hne : data ≠ []) (hnl : ∀ l ∈ data, NL ∉ l) :
    (joinLines data).count NL = data.length - 1 ∧
    (readlines content).flatten = content ∧
    (∀ l ∈ readlines content, NL ∉ l.dropLast) ∧
    LineParser.readData content = (readlines content).map stripOneNL := by
  refine ⟨count_joinLines data hne hnl, readlines_flatten content,
    readlines_dropLast_no_nl content, ?_⟩
  unfold LineParser.readData
  exact List.map_congr_left (fun l hl => rstripNL_eq_stripOneNL_of_mem content l hl)

theorem C7_serializationFormat_witness :
    (joinLines [[97], [98]]).count NL = ([[97], [98]] : List Line).length - 1 ∧
    (readlines [10, 97]).flatten = [10, 97] ∧
    (∀ l ∈ readlines [10, 97], NL ∉ l.dropLast) ∧
    LineParser.readData [10, 97] = (readlines [10, 97]).map stripOneNL :=
  C7_serializationFormat [[97], [98]] [10, 97] (by decide) (by decide)

/-- C9: calling `save()` twice in succession with unchanged data and an
unchanged resolved limit produces byte-identical file content both times,
for either parser. -/
theorem C9_saveIdempotent (call : Option (Option ConfigKey × (ConfigKey → Int)))
    (fs : FS) (data : List Line) :
    (runSave call ((runSave call fs data noFail).2.1) data noFail).2.1.file =
      (runSave call fs data noFail).2.1.file := by
  obtain ⟨file, dir⟩ := fs
  cases call with
  | none => cases dir <;> simp [runSave, LineParser.save, noFail]
  | some p =>
    obtain ⟨lk, cfg⟩ := p
    cases lk with
    | none => simp [runSave, LimitLineParser.save]
    | some k =>
      by_cases hk : cfg k = 0
      · simp [runSave, LimitLineParser.save, hk]
      · cases dir <;> simp [runSave, LimitLineParser.save, hk, noFail]

/-- C10: after a successful construction from an existing file, no element
of the loaded data sequence contains the newline byte anywhere (in
particular none ends with a line terminator). -/
theorem C10_noNewlineInvariant (fs : FS) (content : List Nat) (data : List Line)
    (hfile : fs.file = some content)
    (h : LineParser.construct fs false = Except.ok data) :
    ∀ l ∈ data, NL ∉ l := by
  have h' : LineParser.construct fs false = Except.ok (LineParser.readData content) := by
    simp [LineParser.construct, hfile]
  rw [h'] at h
  have hdata := Except.ok.inj h
  subst hdata
  intro l hl
  rcases List.mem_map.mp hl with ⟨l', hl', rfl⟩
  exact no_nl_rstripNL_of_mem content l' hl'

theorem C10_noNewlineInvariant_witness :
    NL ∉ ([97] : Line) ∧ NL ∉ ([98] : Line) :=
  ⟨C10_noNewlineInvariant ⟨some [97, 10, 98], true⟩ [97, 10, 98] [[97], [98]]
      rfl rfl [97] (by decide),
   C10_noNewlineInvariant ⟨some [97, 10, 98], true⟩ [97, 10, 98] [[97], [98]]
      rfl rfl [98] (by decide)⟩
